import Mathlib

/-!
Verification development for the transaction-cleaning pipeline in
`src/clean_transactions.py`.

The script reads newline-delimited JSON events, extracts relevant fields
(`getting_relevant_data`), drops rows with missing `order_id`/`payment_id`
(`clean_transactions`), normalizes the `amount` column into `amount_usd`
(`is_cent`, `normalize_amount`), canonicalizes the `flags` column
(`extract_flags`), and then applies a filter chain
(`remove_test_transactions`, `remove_null_amounts`, `remove_zero_amounts`,
`drop_failed_pending_payments`, `drop_duplicates`, `fill_na_flags`).

The shallow embedding below models the DataFrame as a `List` of flat
records and each pandas operation as an explicit list transformation.
A decimal amount string is parsed exactly, as the pair of a numerator
and a power-of-ten scale (`DecAmount`), kept in the canonical form with
trailing ten-factors removed so that two cells are structurally equal
exactly when they denote the same decimal value; `DecAmount.toRat` maps
a cell to the rational it denotes.  This models the script's float64
cells faithfully on the values at stake: parsing a decimal string and
dividing an exactly-parsed integer by 100 are correctly rounded, so
cells holding the same decimal value compare equal as floats, and the
sign tests used by the filters depend only on the sign of the exact
value.  A pandas operation that can raise (the `astype('float64')`
conversion, or the batch-level extraction `try`) is modelled with
`Option`.
-/

namespace CleanTransactions

/-- The value stored in the `flags` column. Extraction produces either a
null (Python `None`) or a list of strings; `extract_flags` later joins
lists into scalar strings, so all three shapes occur in the pipeline. -/
inductive FlagValue where
  | fnull : FlagValue
  | flist : List String → FlagValue
  | fstr : String → FlagValue
deriving DecidableEq, Repr

/-- An exact non-negative decimal value `num / 10 ^ scale`, the content
of a float64 `amount_usd` cell (the regex strip removes any minus sign,
so no negative value ever reaches the column). -/
structure DecAmount where
  num : ℕ
  scale : ℕ
deriving DecidableEq, Repr

/-- Remove trailing ten-factors: the canonical representative of a
decimal value, so that structural equality of cells coincides with
equality of the denoted values (mirroring float64 equality). -/
def normTens : ℕ → ℕ → DecAmount
  | n, 0 => ⟨n, 0⟩
  | n, s + 1 => if n % 10 = 0 then normTens (n / 10) s else ⟨n, s + 1⟩

/-- Canonical form of a `DecAmount`. -/
def DecAmount.normalize (a : DecAmount) : DecAmount :=
  normTens a.num a.scale

/-- The rational value a `DecAmount` cell denotes. -/
def DecAmount.toRat (a : DecAmount) : ℚ :=
  (a.num : ℚ) / 10 ^ a.scale

/-- A row of the working DataFrame: the ten fields built by
`getting_relevant_data`, plus the derived `amount_usd` column added by
`normalize_amount` (`none` until that column is assigned; pandas stores
missing scalars as null, modelled by `Option`). -/
structure TransactionRecord where
  order_id : Option String
  customer_email : Option String
  payment_id : Option String
  amount : Option String
  currency : Option String
  created_at : Option String
  flags : FlagValue
  payment_ref : Option String
  payment_provider : Option String
  payment_status : Option String
  amount_usd : Option DecAmount
deriving DecidableEq, Repr

/-- The nested `event` object of a raw JSON record: `type` and `ts` keys,
each possibly absent (or null, which `.get` cannot distinguish). -/
structure EventPart where
  type : Option String
  ts : Option String
deriving DecidableEq, Repr

/-- The nested `entity.order` object. -/
structure OrderPart where
  id : Option String
deriving DecidableEq, Repr

/-- The nested `entity.customer` object. -/
structure CustomerPart where
  email : Option String
deriving DecidableEq, Repr

/-- The nested `entity.payment` object. -/
structure PaymentPart where
  id : Option String
  provider_ref : Option String
  provider : Option String
deriving DecidableEq, Repr

/-- The nested `entity.payload` object; `Currency` distinguishes
key-absent (outer `none`, where `.get('Currency', 'USD')` returns the
default) from key-present-but-null (inner `none`). -/
structure EntityPayloadPart where
  Currency : Option (Option String)
deriving DecidableEq, Repr

/-- The nested `entity` object of a raw JSON record. -/
structure EntityPart where
  order : Option OrderPart
  customer : Option CustomerPart
  payment : Option PaymentPart
  payload : Option EntityPayloadPart
deriving DecidableEq, Repr

/-- The top-level `payload` object; `flags` distinguishes key-absent
(outer `none`, where `.get('flags', [])` returns the default `[]`) from
key-present-but-null (inner `none`) and a present list. -/
structure PayloadPart where
  Amount : Option String
  flags : Option (Option (List String))
  status : Option String
deriving DecidableEq, Repr

/-- A raw JSON event object (a Python dict): the three nested sections,
each possibly absent. -/
structure RawEvent where
  event : Option EventPart
  entity : Option EntityPart
  payload : Option PayloadPart
deriving DecidableEq, Repr

/-- A parsed line of the raw input file.  `json.loads` can yield a value
that is not a dict (e.g. a JSON array or string); calling `.get` on such
a value raises, which `getting_relevant_data` catches at batch level. -/
inductive RawItem where
  | dict : RawEvent → RawItem
  | nondict : RawItem
deriving DecidableEq, Repr

/-- Models the lookup `record.get('event', {}).get('type')`. -/
def eventType (r : RawEvent) : Option String :=
  r.event.bind EventPart.type

/-- The flat relevant-fields dict built inside the extraction loop, one
`.get`-chain per field.  Every chain defaults a missing level to `{}` so
that a missing path yields Python `None`, except `Currency` (key-absent
defaults to the string USD) and `flags` (key-absent defaults to `[]`).
`amount_usd` does not exist yet at this stage. -/
def extractRecord (r : RawEvent) : TransactionRecord :=
  { order_id := (r.entity.bind EntityPart.order).bind OrderPart.id
    customer_email := (r.entity.bind EntityPart.customer).bind CustomerPart.email
    payment_id := (r.entity.bind EntityPart.payment).bind PaymentPart.id
    amount := r.payload.bind PayloadPart.Amount
    currency :=
      match r.entity.bind EntityPart.payload with
      | none => some "USD"
      | some ep =>
        match ep.Currency with
        | none => some "USD"
        | some c => c
    created_at := r.event.bind EventPart.ts
    flags :=
      match r.payload.bind PayloadPart.flags with
      | none => FlagValue.flist []
      | some none => FlagValue.fnull
      | some (some l) => FlagValue.flist l
    payment_ref := (r.entity.bind EntityPart.payment).bind PaymentPart.provider_ref
    payment_provider := (r.entity.bind EntityPart.payment).bind PaymentPart.provider
    payment_status := r.payload.bind PayloadPart.status
    amount_usd := none }

/-- The extraction loop of `getting_relevant_data`: heartbeat events are
skipped, every other dict yields one record, and the first non-dict item
raises (any `.get` on it fails), aborting the whole batch. -/
def extractLoop : List RawItem → Option (List TransactionRecord)
  | [] => some []
  | RawItem.nondict :: _ => none
  | RawItem.dict e :: rest =>
    match extractLoop rest with
    | none => none
    | some recs =>
      if eventType e = some "heartbeat" then some recs
      else some (extractRecord e :: recs)

/-- `getting_relevant_data(data)`: the loop wrapped in `try/except`; an
exception is logged and the function falls through, returning `None`. -/
def getting_relevant_data (data : List RawItem) : Option (List TransactionRecord) :=
  extractLoop data

/-- `clean_transactions(df)`: drop rows with null `order_id`, then rows
with null `payment_id` (each `dropna` is guarded by an `isnull().any()`
check that only adds logging, so it equals the unconditional filter). -/
def clean_transactions (df : List TransactionRecord) : List TransactionRecord :=
  (df.filter fun r => r.order_id.isSome).filter fun r => r.payment_id.isSome

/-- The Python string form of an `amount` cell, as produced by
`.astype(str)`: a stored string is unchanged and a null becomes the
non-empty string `"None"`. -/
def amountStr (a : Option String) : String :=
  match a with
  | none => "None"
  | some s => s

/-- Substring containment, the semantics of Python `in` on strings and
of pandas `.str.contains` with a plain pattern. -/
def strContainsSub (s sub : String) : Bool :=
  decide (sub.data <:+: s.data)

/-- Single-character containment, the one-character case of Python
`in` on strings. -/
def strContainsChar (s : String) (c : Char) : Bool :=
  decide (c ∈ s.data)

/-- `is_cent(value)` as applied to `.astype(str)` values: the argument is
always a string, so the `pd.isna(value)` branch never fires (pandas never
treats a `str` as NA) and only the empty-string test and the three
marker tests remain. -/
def is_cent (s : String) : Bool :=
  if s = "" then false
  else if strContainsChar s '.' || strContainsChar s '$' || strContainsSub s "USD" then false
  else true

/-- The regex replace of `normalize_amount`, which deletes every
character that is not a digit and not a dot.  The following
`.str.strip()` is the identity on the result since every whitespace
character has already been removed. -/
def stripNonDigitDot (s : String) : String :=
  String.mk (s.data.filter fun c => c.isDigit || c = '.')

/-- Decimal value of a digit list, most significant first. -/
def natValL (l : List Char) : ℕ :=
  l.foldl (fun n c => 10 * n + (c.toNat - 48)) 0

/-- Python `float(s)` restricted to the digit/dot strings produced by
`stripNonDigitDot`: the conversion succeeds iff the string has at most
one dot and at least one digit, and its exact decimal value is returned
(integer part before the dot, fractional part after it).  The strings
12.5.0, a lone dot and the empty string all raise. -/
def parseDigitsDot (s : String) : Option DecAmount :=
  let l := s.data
  if (l.all fun c => c.isDigit || c = '.') && decide (l.count '.' ≤ 1) && l.any (fun c => c.isDigit) then
    let ip := l.takeWhile fun c => c ≠ '.'
    let fp := (l.dropWhile fun c => c ≠ '.').drop 1
    some ⟨natValL ip * 10 ^ fp.length + natValL fp, fp.length⟩
  else none

/-- The per-cell effect of `normalize_amount`'s column pipeline on an
`amount` cell: string-form, regex strip, `''` replaced by NaN (modelled
`some none`: the cell holds a null), `astype('float64')` (a parse failure
raises, modelled `none`: the whole step dies), then division by 100 for
cells whose original string form `is_cent` classified as cents
(dividing by 100 adds two to the scale); the cell is stored in canonical
form, as float64 equality is value equality. -/
def computeAmountUsd (a : Option String) : Option (Option DecAmount) :=
  let stripped := stripNonDigitDot (amountStr a)
  if stripped = "" then some none
  else
    match parseDigitsDot stripped with
    | none => none
    | some d =>
      some (some (DecAmount.normalize
        (if is_cent (amountStr a) then ⟨d.num, d.scale + 2⟩ else d)))

/-- `normalize_amount(df1)`: compute the `amount_usd` column (the
`astype` raises — result `none` — as soon as any cell fails to convert),
then keep only rows with `amount_usd` strictly above zero (a NaN
comparison is False, so null amounts are dropped here too). -/
def normalize_amount (df : List TransactionRecord) : Option (List TransactionRecord) :=
  if df.all fun r => (computeAmountUsd r.amount).isSome then
    some (((df.map fun r => { r with amount_usd := (computeAmountUsd r.amount).getD none }).filter
      fun r =>
        match r.amount_usd with
        | some d => decide (0 < d.num)
        | none => false))
  else none

/-- The per-cell lambda of `extract_flags`:
`','.join(x) if isinstance(x, list) else x`. -/
def extractFlagsVal : FlagValue → FlagValue
  | FlagValue.flist l => FlagValue.fstr (String.intercalate "," l)
  | v => v

/-- `extract_flags(df1)`: apply the join lambda down the `flags` column. -/
def extract_flags (df : List TransactionRecord) : List TransactionRecord :=
  df.map fun r => { r with flags := extractFlagsVal r.flags }

/-- `df1['flags'].str.contains(sub, na=False)` for one cell: substring
test on a string cell; a null or non-string (list) cell gives NA, which
`na=False` turns into False. -/
def flagsContains (v : FlagValue) (sub : String) : Bool :=
  match v with
  | FlagValue.fstr s => strContainsSub s sub
  | _ => false

/-- `remove_test_transactions(df1)`: drop rows whose flags contain the
substring test, then rows whose flags contain the substring sandbox (the
`any()` guard only adds logging: when nothing matches the two drops are
identities). -/
def remove_test_transactions (df : List TransactionRecord) : List TransactionRecord :=
  (df.filter fun r => !(flagsContains r.flags "test")).filter
    fun r => !(flagsContains r.flags "sandbox")

/-- `remove_null_amounts(df1)`: drop rows with null `amount_usd`. -/
def remove_null_amounts (df : List TransactionRecord) : List TransactionRecord :=
  df.filter fun r => r.amount_usd.isSome

/-- `remove_zero_amounts(df1)`: keep rows whose `amount_usd` value is
not zero (a NaN cell compares not-equal, so null amounts are kept by
this step). -/
def remove_zero_amounts (df : List TransactionRecord) : List TransactionRecord :=
  df.filter fun r =>
    match r.amount_usd with
    | some d => decide (d.num ≠ 0)
    | none => true

/-- `drop_failed_pending_payments(df1)`: keep rows whose
`payment_status` is not in `['FAILED', 'PENDING']` (a null status is not
`isin`, hence kept). -/
def drop_failed_pending_payments (df : List TransactionRecord) : List TransactionRecord :=
  df.filter fun r =>
    !(r.payment_status = some "FAILED" || r.payment_status = some "PENDING")

/-- Worker for `drop_duplicates`: keep a row iff it has not been seen
before, i.e. pandas `drop_duplicates()` with its default keep-first
policy. -/
def dropDupAux (seen : List TransactionRecord) :
    List TransactionRecord → List TransactionRecord
  | [] => []
  | r :: rs =>
    if r ∈ seen then dropDupAux seen rs
    else r :: dropDupAux (r :: seen) rs

/-- `drop_duplicates(df1)`: remove exact full-row duplicates, keeping the
first occurrence. -/
def drop_duplicates (df : List TransactionRecord) : List TransactionRecord :=
  dropDupAux [] df

/-- The per-cell effect of `fill_na_flags`'s `fillna('normal')`: only a
null cell is replaced. -/
def fillFlagsVal : FlagValue → FlagValue
  | FlagValue.fnull => FlagValue.fstr "normal"
  | v => v

/-- `fill_na_flags(df1)`: replace null flags by the string normal. -/
def fill_na_flags (df : List TransactionRecord) : List TransactionRecord :=
  df.map fun r => { r with flags := fillFlagsVal r.flags }

/-- The filter-chain prefix up to and including `drop_duplicates`, i.e.
the state of the DataFrame just before `fill_na_flags`. -/
def filterChainPreFill (df : List TransactionRecord) : List TransactionRecord :=
  drop_duplicates (drop_failed_pending_payments (remove_zero_amounts
    (remove_null_amounts (remove_test_transactions df))))

/-- The six-step filter chain exactly as invoked at module level:
`remove_test_transactions`, `remove_null_amounts`, `remove_zero_amounts`,
`drop_failed_pending_payments`, `drop_duplicates`, `fill_na_flags`. -/
def filterChain (df : List TransactionRecord) : List TransactionRecord :=
  fill_na_flags (filterChainPreFill df)

/-- The whole module-level pipeline on the parsed input: extraction
(`none` if the batch `try` failed, after which the script dies on the
unusable `None`), `clean_transactions`, `normalize_amount` (`none` if the
`astype` raised), `extract_flags`, then the filter chain. -/
def pipeline (data : List RawItem) : Option (List TransactionRecord) :=
  match getting_relevant_data data with
  | none => none
  | some recs =>
    match normalize_amount (clean_transactions recs) with
    | none => none
    | some df => some (filterChain (extract_flags df))

/-! Concrete records and events used to evaluate the definitions. -/

/-- A fully valid cleaned row, as it looks after `normalize_amount`. -/
def baseRec : TransactionRecord :=
  { order_id := some "o1", customer_email := none, payment_id := some "p1",
    amount := some "500", currency := some "USD", created_at := some "t1",
    flags := FlagValue.fnull, payment_ref := none, payment_provider := none,
    payment_status := some "PAID", amount_usd := some ⟨5, 0⟩ }

/-- `baseRec` with flags already equal to the string normal. -/
def recNormal : TransactionRecord :=
  { baseRec with flags := FlagValue.fstr "normal" }

/-- `baseRec` with a list-valued flags cell. -/
def testPromoRec : TransactionRecord :=
  { baseRec with flags := FlagValue.flist ["test", "promo"] }

/-- `testPromoRec` after the `extract_flags` join. -/
def testPromoJoined : TransactionRecord :=
  { baseRec with flags := FlagValue.fstr "test,promo" }

/-- A row whose raw amount is the malformed string 12.5.0, before the
`amount_usd` column exists. -/
def rec1250 : TransactionRecord :=
  { baseRec with amount := some "12.5.0", amount_usd := none }

/-- A row whose raw amount is the string -0, before the `amount_usd`
column exists. -/
def negZeroRec : TransactionRecord :=
  { baseRec with amount := some "-0", amount_usd := none }

/-- A raw event with every nested section absent. -/
def emptyRawEvent : RawEvent :=
  { event := none, entity := none, payload := none }

/-- A valid raw payment event whose payload carries an explicitly null
flags value. -/
def eventNullFlags : RawEvent :=
  { event := some { type := some "payment", ts := some "t1" },
    entity := some { order := some { id := some "o1" }, customer := none,
                     payment := some { id := some "p1", provider_ref := none,
                                       provider := none },
                     payload := none },
    payload := some { Amount := some "500", flags := some none,
                      status := some "PAID" } }

/-- The same event with flags present as the one-element list
containing the string normal. -/
def eventNormalFlags : RawEvent :=
  { eventNullFlags with
    payload := some { Amount := some "500", flags := some (some ["normal"]),
                      status := some "PAID" } }

/-- The input batch holding the two events above. -/
def dupInput : List RawItem :=
  [RawItem.dict eventNullFlags, RawItem.dict eventNormalFlags]

/-- The record the pipeline produces twice on `dupInput`. -/
def dupOutRec : TransactionRecord :=
  { order_id := some "o1", customer_email := none, payment_id := some "p1",
    amount := some "500", currency := some "USD", created_at := some "t1",
    flags := FlagValue.fstr "normal", payment_ref := none,
    payment_provider := none, payment_status := some "PAID",
    amount_usd := some ⟨5, 0⟩ }

/-! ## Helper lemmas -/

/-- On a batch of well-formed dict records the extraction loop succeeds
and returns one record per non-heartbeat event, in input order. -/
theorem extractLoop_dicts (events : List RawEvent) :
    extractLoop (events.map RawItem.dict) =
      some ((events.filter fun e => eventType e ≠ some "heartbeat").map extractRecord) := by
  induction events with
  | nil => rfl
  | cons e rest ih =>
    simp only [List.map_cons, extractLoop, ih, List.filter_cons]
    by_cases h : eventType e = some "heartbeat"
    · simp [h]
    · simp [h]

/-! ## Claims -/

/-- C6: given any sequence of raw events, the field extractor produces
exactly one `TransactionRecord` per raw event whose event type is not
heartbeat (heartbeat events produce no output record), and the output
sequence preserves the input order of the retained events: the output is
literally the map of `extractRecord` over the in-order sublist of
non-heartbeat events. -/
theorem claim6_one_record_per_non_heartbeat (events : List RawEvent) :
    getting_relevant_data (events.map RawItem.dict) =
      some ((events.filter fun e => eventType e ≠ some "heartbeat").map extractRecord) :=
  extractLoop_dicts events

/-- C9: if any record in the batch causes an exception during field
extraction (a non-mapping record makes the nested lookup raise), the
extractor catches it at whole-batch level and returns no usable result
(`none`) instead of a partial sequence — an all-or-nothing failure for
the entire batch, wherever the bad record sits. -/
theorem claim9_extraction_all_or_nothing (pre post : List RawItem) :
    getting_relevant_data (pre ++ RawItem.nondict :: post) = none := by
  induction pre with
  | nil => rfl
  | cons i rest ih =>
    cases i with
    | nondict => rfl
    | dict e =>
      simp only [getting_relevant_data] at ih
      simp only [List.cons_append, getting_relevant_data, extractLoop]
      rw [List.append_eq, ih]

/-- C3 counterexample: the malformed raw amount 12.5.0 is not stripped
to 12.50 — the regex keeps both dots, the stripped string is still
12.5.0 — and the float conversion then fails (the script raises), so no
`amount_usd` of 12.50 is produced. -/
theorem claim3_counterexample :
    stripNonDigitDot "12.5.0" = "12.5.0" ∧
    computeAmountUsd (some "12.5.0") = none ∧
    computeAmountUsd (some "12.5.0") ≠ some (some ⟨125, 1⟩) ∧
    normalize_amount [rec1250] = none := by decide

/-- C3 amended: raw amount 500 yields `amount_usd` 5.00, raw 5.00 (with
a dollar sign or not) yields 5.00; but the malformed 12.5.0 is left
unchanged by the character strip (the dot is kept, so it is not turned
into 12.50), its float conversion fails, and `normalize_amount` on a
batch containing it dies (raises) rather than yielding 12.50. -/
theorem claim3_amount_mappings :
    computeAmountUsd (some "500") = some (some ⟨5, 0⟩) ∧
    computeAmountUsd (some "$5.00") = some (some ⟨5, 0⟩) ∧
    computeAmountUsd (some "5.00") = some (some ⟨5, 0⟩) ∧
    (DecAmount.mk 5 0).toRat = 5 ∧
    stripNonDigitDot "12.5.0" = "12.5.0" ∧
    parseDigitsDot "12.5.0" = none ∧
    normalize_amount [rec1250] = none := by
  refine ⟨by decide, by decide, by decide, ?_, by decide, by decide, by decide⟩
  norm_num [DecAmount.toRat]

/-- C7: the flag canonicalizer joins every list-valued flags cell into a
comma-separated string and passes null and string cells through
unchanged; in particular a record whose flags are the list holding test
and promo becomes the string test,promo, and such a record is removed by
`remove_test_transactions` from any collection containing it. -/
theorem claim7_flag_canonicalization :
    (∀ l, extractFlagsVal (FlagValue.flist l) = FlagValue.fstr (String.intercalate "," l)) ∧
    extractFlagsVal FlagValue.fnull = FlagValue.fnull ∧
    (∀ s, extractFlagsVal (FlagValue.fstr s) = FlagValue.fstr s) ∧
    extract_flags [testPromoRec] = [testPromoJoined] ∧
    (∀ df, remove_test_transactions (testPromoJoined :: df) = remove_test_transactions df) := by
  refine ⟨fun l => rfl, rfl, fun s => rfl, by decide, fun df => ?_⟩
  have h : (!(flagsContains testPromoJoined.flags "test")) = false := by decide
  simp only [remove_test_transactions, List.filter_cons, h]
  simp

/-- Replacing the seen-list by one with the same members does not change
the keep-first scan. -/
theorem dropDupAux_congr (s1 s2 l : List TransactionRecord)
    (h : ∀ a, a ∈ s1 ↔ a ∈ s2) : dropDupAux s1 l = dropDupAux s2 l := by
  induction l generalizing s1 s2 with
  | nil => rfl
  | cons x t ih =>
    simp only [dropDupAux]
    by_cases hx : x ∈ s1
    · rw [if_pos hx, if_pos ((h x).mp hx), ih _ _ h]
    · rw [if_neg hx, if_neg (fun hx2 => hx ((h x).mpr hx2))]
      have hc : ∀ a, a ∈ x :: s1 ↔ a ∈ x :: s2 := by
        intro a; simp [List.mem_cons, h a]
      rw [ih _ _ hc]

/-- The keep-first scan returns a sublist of its input. -/
theorem dropDupAux_sublist (seen l : List TransactionRecord) :
    (dropDupAux seen l).Sublist l := by
  induction l generalizing seen with
  | nil => exact List.Sublist.refl _
  | cons x t ih =>
    simp only [dropDupAux]
    by_cases hx : x ∈ seen
    · rw [if_pos hx]; exact (ih seen).cons x
    · rw [if_neg hx]; exact (ih (x :: seen)).cons₂ x

/-- Occurrence count after the keep-first scan: a row already seen is
gone, any other row keeps exactly min(count, 1) occurrences. -/
theorem dropDupAux_count (seen l : List TransactionRecord) (r : TransactionRecord) :
    (dropDupAux seen l).count r = if r ∈ seen then 0 else min (l.count r) 1 := by
  induction l generalizing seen with
  | nil => by_cases hr : r ∈ seen <;> simp [dropDupAux, hr]
  | cons x t ih =>
    simp only [dropDupAux]
    by_cases hx : x ∈ seen
    · rw [if_pos hx, ih]
      by_cases hr : r ∈ seen
      · simp [hr]
      · have hrx : r ≠ x := fun he => hr (he ▸ hx)
        simp [hr, List.count_cons, hrx]
    · rw [if_neg hx]
      by_cases hr : r ∈ seen
      · have hmem : r ∈ x :: seen := List.mem_cons_of_mem _ hr
        have hrx : r ≠ x := fun he => hx (he ▸ hr)
        simp [List.count_cons, ih (x :: seen), hmem, hr, hrx]
      · by_cases hrx : r = x
        · subst hrx
          have hmem : r ∈ r :: seen := List.mem_cons_self r seen
          simp only [List.count_cons, ih (r :: seen), if_pos hmem, if_neg hr]
          simp
        · have hmem : r ∉ x :: seen := by simp [List.mem_cons, hrx, hr]
          have hxr : x ≠ r := fun he => hrx he.symm
          simp only [List.count_cons, ih (x :: seen), if_neg hmem, if_neg hr]
          simp [hxr]

/-- Seeding the scan with an extra row is the same as filtering that row
out of the input first. -/
theorem dropDupAux_cons_filter (x : TransactionRecord)
    (seen l : List TransactionRecord) :
    dropDupAux (x :: seen) l = dropDupAux seen (l.filter fun y => y ≠ x) := by
  induction l generalizing seen with
  | nil => rfl
  | cons y t ih =>
    simp only [dropDupAux, List.filter_cons]
    by_cases hyx : y = x
    · subst hyx
      rw [if_pos (List.mem_cons_self y seen)]
      simp [ih]
    · have hd : (decide (y ≠ x)) = true := by simp [hyx]
      rw [hd]
      simp only [if_true]
      by_cases hy : y ∈ seen
      · rw [if_pos (List.mem_cons_of_mem _ hy), dropDupAux, if_pos hy, ih]
      · have hny : y ∉ x :: seen := by simp [List.mem_cons, hyx, hy]
        rw [if_neg hny, dropDupAux, if_neg hy]
        have hswap : dropDupAux (y :: x :: seen) t = dropDupAux (x :: y :: seen) t :=
          dropDupAux_congr _ _ _ (by intro a; simp [List.mem_cons]; tauto)
        rw [hswap, ih]

/-- The keep-first scan leaves a duplicate-free input untouched when no
row was seen already. -/
theorem dropDupAux_nodup_id (l : List TransactionRecord)
    (seen : List TransactionRecord) (hs : ∀ a ∈ l, a ∉ seen) (hl : l.Nodup) :
    dropDupAux seen l = l := by
  induction l generalizing seen with
  | nil => rfl
  | cons x t ih =>
    have hx : x ∉ seen := hs x (List.mem_cons_self x t)
    simp only [dropDupAux, if_neg hx]
    have hs' : ∀ a ∈ t, a ∉ x :: seen := by
      intro a ha
      simp only [List.mem_cons, not_or]
      exact ⟨fun he => (List.nodup_cons.mp hl).1 (he ▸ ha),
             hs a (List.mem_cons_of_mem _ ha)⟩
    rw [ih _ hs' (List.nodup_cons.mp hl).2]

/-- C8: duplicate removal drops every record equal to an earlier one and
keeps the first occurrence: each row keeps min(count, 1) occurrences (so
each group of identical rows collapses to exactly one surviving row),
the output is an in-order sublist of the input, and the head of a
collection is always retained while its later copies are removed. -/
theorem claim8_drop_duplicates_spec :
    (∀ (l : List TransactionRecord) (r : TransactionRecord),
      (drop_duplicates l).count r = min (l.count r) 1) ∧
    (∀ l : List TransactionRecord, (drop_duplicates l).Sublist l) ∧
    (∀ (x : TransactionRecord) (xs : List TransactionRecord),
      drop_duplicates (x :: xs) = x :: drop_duplicates (xs.filter fun y => y ≠ x)) := by
  refine ⟨fun l r => ?_, fun l => dropDupAux_sublist _ _, fun x xs => ?_⟩
  · rw [drop_duplicates, dropDupAux_count]
    simp
  · rw [drop_duplicates, drop_duplicates, dropDupAux,
      if_neg (List.not_mem_nil x), dropDupAux_cons_filter]

/-- Removing trailing ten-factors does not change the denoted value. -/
theorem toRat_normTens (n s : ℕ) :
    (normTens n s).toRat = (DecAmount.mk n s).toRat := by
  induction s generalizing n with
  | zero => rfl
  | succ s ih =>
    simp only [normTens]
    by_cases h : n % 10 = 0
    · rw [if_pos h, ih]
      obtain ⟨k, hk⟩ := Nat.dvd_of_mod_eq_zero h
      subst hk
      rw [Nat.mul_div_cancel_left k (by norm_num)]
      simp only [DecAmount.toRat, pow_succ]
      field_simp
      ring
    · rw [if_neg h]

/-- Canonicalizing a cell does not change the denoted value. -/
theorem DecAmount.toRat_normalize (a : DecAmount) :
    a.normalize.toRat = a.toRat :=
  toRat_normTens a.num a.scale

/-- A cell denotes a positive value exactly when its numerator is
positive. -/
theorem DecAmount.toRat_pos (a : DecAmount) : 0 < a.toRat ↔ 0 < a.num := by
  simp only [DecAmount.toRat]
  constructor
  · intro h
    rcases Nat.eq_zero_or_pos a.num with h0 | h0
    · rw [h0] at h; norm_num at h
    · exact h0
  · intro h
    apply div_pos
    · exact_mod_cast h
    · positivity

/-- Adding two to the scale divides the denoted value by 100. -/
theorem toRat_scale_add_two (d : DecAmount) :
    (DecAmount.mk d.num (d.scale + 2)).toRat = d.toRat / 100 := by
  simp only [DecAmount.toRat, pow_add]
  ring

/-- The float conversion accepts a non-empty all-digit string and
returns its integer value at scale zero. -/
theorem parseDigitsDot_digits (l : List Char) (hne : l ≠ [])
    (hdig : ∀ c ∈ l, c.isDigit = true) :
    parseDigitsDot (String.mk l) = some ⟨natValL l, 0⟩ := by
  have hdot : '.' ∉ l := fun h => by simpa using hdig '.' h
  have hcond : ((l.all fun c => c.isDigit || c = '.') &&
      decide (l.count '.' ≤ 1) && l.any (fun c => c.isDigit)) = true := by
    refine Bool.and_eq_true_iff.mpr ⟨Bool.and_eq_true_iff.mpr ⟨?_, ?_⟩, ?_⟩
    · exact List.all_eq_true.mpr fun c hc => by simp [hdig c hc]
    · have : l.count '.' = 0 := List.count_eq_zero.mpr hdot
      simp [this]
    · obtain ⟨c, hc⟩ := List.exists_mem_of_ne_nil l hne
      exact List.any_eq_true.mpr ⟨c, hc, hdig c hc⟩
  have htake : l.takeWhile (fun c => decide (c ≠ '.')) = l :=
    List.takeWhile_eq_self_iff.mpr fun c hc => by
      simp only [decide_eq_true_eq]
      exact fun he => hdot (he ▸ hc)
  have hdrop : l.dropWhile (fun c => decide (c ≠ '.')) = [] :=
    List.dropWhile_eq_nil_iff.mpr fun c hc => by
      simp only [decide_eq_true_eq]
      exact fun he => hdot (he ▸ hc)
  simp only [parseDigitsDot, hcond, if_true, htake, hdrop]
  simp [natValL]

/-- The regex strip removes a leading minus sign and keeps an all-digit
tail unchanged. -/
theorem strip_minus_digits (l : List Char) (hdig : ∀ c ∈ l, c.isDigit = true) :
    stripNonDigitDot (String.mk ('-' :: l)) = String.mk l := by
  simp only [stripNonDigitDot]
  rw [List.filter_cons_of_neg (by decide),
    List.filter_eq_self.mpr fun c hc => by simp [hdig c hc]]

/-- C4: the normalizer classifies a raw amount as cents-represented iff
its string form is non-empty and contains no dot, no dollar sign and no
USD substring (the string form of a null cell is the non-empty word None
and is so classified); exactly the records so classified have their
parsed amount divided by 100, and amounts whose string form contains a
dot, a dollar sign or USD are never divided. -/
theorem claim4_cents_classification (a : Option String) :
    (is_cent (amountStr a) = true ↔
      amountStr a ≠ "" ∧ strContainsChar (amountStr a) '.' = false ∧
      strContainsChar (amountStr a) '$' = false ∧
      strContainsSub (amountStr a) "USD" = false) ∧
    (∀ d, parseDigitsDot (stripNonDigitDot (amountStr a)) = some d →
      ∃ v, computeAmountUsd a = some (some v) ∧
        v.toRat = if is_cent (amountStr a) then d.toRat / 100 else d.toRat) := by
  constructor
  · by_cases h0 : amountStr a = ""
    · simp [is_cent, h0]
    · cases hdot : strContainsChar (amountStr a) '.' <;>
        cases hdol : strContainsChar (amountStr a) '$' <;>
          cases husd : strContainsSub (amountStr a) "USD" <;>
            simp [is_cent, h0, hdot, hdol, husd]
  · intro d hd
    have hne : stripNonDigitDot (amountStr a) ≠ "" := by
      intro he
      rw [he, show parseDigitsDot "" = none from by decide] at hd
      exact Option.noConfusion hd
    refine ⟨DecAmount.normalize
      (if is_cent (amountStr a) then ⟨d.num, d.scale + 2⟩ else d), ?_, ?_⟩
    · simp only [computeAmountUsd]
      rw [if_neg hne, hd]
    · rw [DecAmount.toRat_normalize]
      by_cases hc : is_cent (amountStr a) = true
      · rw [if_pos hc, if_pos hc, toRat_scale_add_two]
      · rw [if_neg hc, if_neg hc]

/-- C4 witness: the raw amount 500 is classified as cents and its parsed
value 500 is divided by 100. -/
theorem claim4_witness :
    is_cent (amountStr (some "500")) = true ∧
    ∃ v, computeAmountUsd (some "500") = some (some v) ∧
      v.toRat = if is_cent (amountStr (some "500"))
        then (DecAmount.mk 500 0).toRat / 100 else (DecAmount.mk 500 0).toRat :=
  ⟨(claim4_cents_classification (some "500")).1.mpr (by decide),
   (claim4_cents_classification (some "500")).2 ⟨500, 0⟩ (by decide)⟩

/-- C10 counterexample: the raw amount -0 consists of a minus sign
followed by digits only, is classified as cents and divided by 100, but
the resulting `amount_usd` is 0, which is not strictly positive, and the
record is dropped by the positivity filter — refuting the claim that
every such record survives with a strictly positive value. -/
theorem claim10_counterexample :
    is_cent "-0" = true ∧
    stripNonDigitDot "-0" = "0" ∧
    computeAmountUsd (some "-0") = some (some ⟨0, 0⟩) ∧
    normalize_amount [negZeroRec] = some [] := by decide

/-- C10 amended: for every record whose raw amount string is a minus
sign followed by digits only, the character stripping removes the minus
sign and the value is classified as cents and divided by 100; provided
the digits denote a nonzero value, the resulting `amount_usd` is
strictly positive and the record survives the positivity filter as a
positive value rather than being dropped (when the digits denote zero,
as in raw amount -0, the result is 0 and the row is dropped). -/
theorem claim10_minus_digit_amounts (t : String)
    (hdig : ∀ c ∈ t.data, c.isDigit = true)
    (hpos : 0 < natValL t.data) :
    is_cent ("-" ++ t) = true ∧
    stripNonDigitDot ("-" ++ t) = t ∧
    ∃ v, computeAmountUsd (some ("-" ++ t)) = some (some v) ∧
      v.toRat = (natValL t.data : ℚ) / 100 ∧ 0 < v.toRat ∧
      ∀ r : TransactionRecord, r.amount = some ("-" ++ t) →
        normalize_amount [r] = some [{ r with amount_usd := some v }] := by
  obtain ⟨lt⟩ := t
  have hdig' : ∀ c ∈ lt, c.isDigit = true := hdig
  have hposl : 0 < natValL lt := hpos
  have hne : lt ≠ [] := by
    intro h
    rw [h] at hposl
    simp [natValL] at hposl
  have hdata : ("-" ++ String.mk lt).data = '-' :: lt := rfl
  have hnempty : ("-" ++ String.mk lt) ≠ "" := by
    intro h
    have h2 : '-' :: lt = ([] : List Char) := by
      rw [← hdata, ← show ("" : String).data = [] from rfl]
      exact String.ext_iff.mp h
    exact List.noConfusion h2
  have hdot : strContainsChar ("-" ++ String.mk lt) '.' = false := by
    simp only [strContainsChar, hdata, decide_eq_false_iff_not]
    intro hmem
    rcases List.mem_cons.mp hmem with h | h
    · exact absurd h (by decide)
    · simpa using hdig' '.' h
  have hdol : strContainsChar ("-" ++ String.mk lt) '$' = false := by
    simp only [strContainsChar, hdata, decide_eq_false_iff_not]
    intro hmem
    rcases List.mem_cons.mp hmem with h | h
    · exact absurd h (by decide)
    · simpa using hdig' '$' h
  have husd : strContainsSub ("-" ++ String.mk lt) "USD" = false := by
    simp only [strContainsSub, hdata, decide_eq_false_iff_not]
    intro hinf
    have hU : 'U' ∈ '-' :: lt := hinf.subset (by decide)
    rcases List.mem_cons.mp hU with h | h
    · exact absurd h (by decide)
    · simpa using hdig' 'U' h
  have hcent : is_cent ("-" ++ String.mk lt) = true := by
    simp [is_cent, hnempty, hdot, hdol, husd]
  have hstrip : stripNonDigitDot ("-" ++ String.mk lt) = String.mk lt :=
    strip_minus_digits lt hdig'
  have hparse : parseDigitsDot (String.mk lt) = some ⟨natValL lt, 0⟩ :=
    parseDigitsDot_digits lt hne hdig'
  have hmkne : String.mk lt ≠ "" := by
    intro h
    exact hne (String.ext_iff.mp h)
  have hcomp : computeAmountUsd (some ("-" ++ String.mk lt)) =
      some (some (normTens (natValL lt) 2)) := by
    simp only [computeAmountUsd, amountStr, hstrip]
    rw [if_neg hmkne, hparse]
    simp [hcent, DecAmount.normalize]
  have htoRat : (normTens (natValL lt) 2).toRat = (natValL lt : ℚ) / 100 := by
    rw [toRat_normTens]
    simp only [DecAmount.toRat]
    norm_num
  have hratpos : 0 < (normTens (natValL lt) 2).toRat := by
    rw [htoRat]
    apply div_pos
    · exact_mod_cast hposl
    · norm_num
  refine ⟨hcent, hstrip, normTens (natValL lt) 2, hcomp, htoRat, hratpos, ?_⟩
  intro r hr
  have hnum : 0 < (normTens (natValL lt) 2).num :=
    (DecAmount.toRat_pos _).mp hratpos
  simp only [normalize_amount, List.all_cons, List.all_nil, hr, hcomp,
    Option.isSome_some, Bool.and_self, if_true, List.map_cons, List.map_nil,
    Option.getD_some, List.filter]
  rw [decide_eq_true hnum]

/-- C10 witness: the raw amount -500 is stripped to 500, classified as
cents, divided by 100 and the resulting value 5 is strictly positive. -/
theorem claim10_witness :
    is_cent ("-" ++ "500") = true ∧
    stripNonDigitDot ("-" ++ "500") = "500" ∧
    ∃ v, computeAmountUsd (some ("-" ++ "500")) = some (some v) ∧
      v.toRat = (natValL "500".data : ℚ) / 100 ∧ 0 < v.toRat := by
  obtain ⟨h1, h2, v, h3, h4, h5, _⟩ :=
    claim10_minus_digit_amounts "500" (by decide) (by decide)
  exact ⟨h1, h2, v, h3, h4, h5⟩

/-- C5 counterexample: on the raw event with every nested section
absent, the nested paths for currency and flags are absent, yet the
extracted currency is the non-null default string USD and the extracted
flags value is the non-null empty list — so it is not the case that
every field with an absent path extracts to null. -/
theorem claim5_counterexample :
    emptyRawEvent.entity = none ∧ emptyRawEvent.payload = none ∧
    (extractRecord emptyRawEvent).currency = some "USD" ∧
    (extractRecord emptyRawEvent).currency ≠ none ∧
    (extractRecord emptyRawEvent).flags = FlagValue.flist [] ∧
    (extractRecord emptyRawEvent).flags ≠ FlagValue.fnull := by decide

/-- C5 amended: for every retained raw event the extractor pulls each
field by fixed nested-path lookup and an absent path yields null for
every field except two defaulted ones — an absent currency path yields
the default USD and an absent flags key yields the empty list — and
extraction of a batch of well-formed dict events never fails as a
whole. -/
theorem claim5_nested_path_defaults (e : RawEvent) :
    (e.entity = none →
      (extractRecord e).order_id = none ∧ (extractRecord e).customer_email = none ∧
      (extractRecord e).payment_id = none ∧ (extractRecord e).payment_ref = none ∧
      (extractRecord e).payment_provider = none ∧ (extractRecord e).currency = some "USD") ∧
    (e.event = none → (extractRecord e).created_at = none) ∧
    (e.payload = none →
      (extractRecord e).amount = none ∧ (extractRecord e).payment_status = none ∧
      (extractRecord e).flags = FlagValue.flist []) ∧
    (∀ ent, e.entity = some ent → ent.order = none → (extractRecord e).order_id = none) ∧
    (∀ ent, e.entity = some ent → ent.payment = none →
      (extractRecord e).payment_id = none ∧ (extractRecord e).payment_ref = none ∧
      (extractRecord e).payment_provider = none) ∧
    (∀ ent, e.entity = some ent → ent.payload = none →
      (extractRecord e).currency = some "USD") ∧
    (∀ p, e.payload = some p → p.flags = none →
      (extractRecord e).flags = FlagValue.flist []) ∧
    (∀ p, e.payload = some p → p.Amount = none → (extractRecord e).amount = none) ∧
    (∀ events : List RawEvent,
      (getting_relevant_data (events.map RawItem.dict)).isSome = true) := by
  refine ⟨fun h => ?_, fun h => ?_, fun h => ?_, fun ent h1 h2 => ?_,
    fun ent h1 h2 => ?_, fun ent h1 h2 => ?_, fun p h1 h2 => ?_,
    fun p h1 h2 => ?_, fun events => ?_⟩
  · simp [extractRecord, h]
  · simp [extractRecord, h]
  · simp [extractRecord, h]
  · simp [extractRecord, h1, h2]
  · simp [extractRecord, h1, h2]
  · simp [extractRecord, h1, h2]
  · simp [extractRecord, h1, h2]
  · simp [extractRecord, h1, h2]
  · simp only [getting_relevant_data]
    rw [extractLoop_dicts]
    rfl

/-- C5 witness: on the all-absent raw event the non-defaulted fields do
extract to null and a batch made of it extracts without failing. -/
theorem claim5_witness :
    (extractRecord emptyRawEvent).order_id = none ∧
    (extractRecord emptyRawEvent).created_at = none ∧
    (extractRecord emptyRawEvent).amount = none ∧
    (getting_relevant_data [RawItem.dict emptyRawEvent]).isSome = true := by
  obtain ⟨h1, h2, h3, _, _, _, _, _, h9⟩ := claim5_nested_path_defaults emptyRawEvent
  exact ⟨(h1 rfl).1, h2 rfl, (h3 rfl).1, h9 [emptyRawEvent]⟩

/-- Mapping a function that fixes every member is the identity. -/
theorem map_eq_self_of {α : Type} (f : α → α) (l : List α)
    (h : ∀ a ∈ l, f a = a) : l.map f = l := by
  induction l with
  | nil => rfl
  | cons x t ih =>
    rw [List.map_cons, h x (List.mem_cons_self x t),
      ih fun a ha => h a (List.mem_cons_of_mem _ ha)]

/-- The replacement cell written by `fill_na_flags` is never null. -/
theorem fillFlagsVal_ne_fnull (v : FlagValue) : fillFlagsVal v ≠ FlagValue.fnull := by
  cases v <;> simp [fillFlagsVal]

/-- Filling a null flags cell cannot introduce a substring match that
the word normal does not have. -/
theorem flagsContains_fill (v : FlagValue) (sub : String)
    (hsub : strContainsSub "normal" sub = false)
    (h : flagsContains v sub = false) :
    flagsContains (fillFlagsVal v) sub = false := by
  cases v with
  | fnull => simpa [fillFlagsVal, flagsContains] using hsub
  | flist l => exact h
  | fstr s => exact h

/-- Duplicate removal leaves no duplicates behind. -/
theorem drop_duplicates_nodup (l : List TransactionRecord) :
    (drop_duplicates l).Nodup := by
  rw [List.nodup_iff_count_le_one]
  intro a
  rw [drop_duplicates, dropDupAux_count]
  simp only [List.not_mem_nil, if_false]
  exact Nat.min_le_right _ _

/-- Every row surviving the chain prefix up to `drop_duplicates` comes
from the input and satisfies all the filter predicates. -/
theorem mem_filterChainPreFill (df : List TransactionRecord)
    (r : TransactionRecord) (h : r ∈ filterChainPreFill df) :
    r ∈ df ∧ flagsContains r.flags "test" = false ∧
    flagsContains r.flags "sandbox" = false ∧
    r.amount_usd.isSome = true ∧
    (∀ d, r.amount_usd = some d → d.num ≠ 0) ∧
    r.payment_status ≠ some "FAILED" ∧ r.payment_status ≠ some "PENDING" := by
  simp only [filterChainPreFill, drop_duplicates] at h
  have h1 := (dropDupAux_sublist _ _).subset h
  simp only [drop_failed_pending_payments, List.mem_filter] at h1
  obtain ⟨h2, hstat⟩ := h1
  simp only [remove_zero_amounts, List.mem_filter] at h2
  obtain ⟨h3, hzero⟩ := h2
  simp only [remove_null_amounts, List.mem_filter] at h3
  obtain ⟨h4, hsome⟩ := h3
  simp only [remove_test_transactions, List.mem_filter] at h4
  obtain ⟨⟨h5, htest⟩, hsand⟩ := h4
  simp only [Bool.not_eq_true'] at htest hsand
  simp only [Bool.not_eq_true', Bool.or_eq_false_iff, decide_eq_false_iff_not] at hstat
  refine ⟨h5, htest, hsand, hsome, ?_, hstat.1, hstat.2⟩
  intro d hd
  rw [hd] at hzero
  simpa using hzero

/-- Every row of the chain output is a pre-fill survivor with its flags
cell filled. -/
theorem mem_filterChain (df : List TransactionRecord) (r : TransactionRecord)
    (h : r ∈ filterChain df) :
    ∃ rp ∈ filterChainPreFill df, r = { rp with flags := fillFlagsVal rp.flags } := by
  simp only [filterChain, fill_na_flags, List.mem_map] at h
  obtain ⟨rp, hrp, he⟩ := h
  exact ⟨rp, hrp, he.symm⟩

/-- The chain is the identity on a duplicate-free collection whose rows
already satisfy every filter predicate and have no null flags. -/
theorem filterChain_eq_self (l : List TransactionRecord) (hnd : l.Nodup)
    (hinv : ∀ r ∈ l,
      flagsContains r.flags "test" = false ∧
      flagsContains r.flags "sandbox" = false ∧
      r.amount_usd.isSome = true ∧
      (∀ d, r.amount_usd = some d → d.num ≠ 0) ∧
      r.payment_status ≠ some "FAILED" ∧ r.payment_status ≠ some "PENDING" ∧
      r.flags ≠ FlagValue.fnull) :
    filterChain l = l := by
  have ht1 : l.filter (fun r => !(flagsContains r.flags "test")) = l :=
    List.filter_eq_self.mpr fun a ha => by simp [(hinv a ha).1]
  have ht2 : l.filter (fun r => !(flagsContains r.flags "sandbox")) = l :=
    List.filter_eq_self.mpr fun a ha => by simp [(hinv a ha).2.1]
  have ht : remove_test_transactions l = l := by
    simp only [remove_test_transactions, ht1, ht2]
  have hn : remove_null_amounts l = l := by
    simp only [remove_null_amounts]
    exact List.filter_eq_self.mpr fun a ha => (hinv a ha).2.2.1
  have hz : remove_zero_amounts l = l := by
    simp only [remove_zero_amounts]
    refine List.filter_eq_self.mpr fun a ha => ?_
    cases hd : a.amount_usd with
    | none => rfl
    | some d => simpa using (hinv a ha).2.2.2.1 d hd
  have hf : drop_failed_pending_payments l = l := by
    simp only [drop_failed_pending_payments]
    refine List.filter_eq_self.mpr fun a ha => ?_
    simp [(hinv a ha).2.2.2.2.1, (hinv a ha).2.2.2.2.2.1]
  have hd : drop_duplicates l = l :=
    dropDupAux_nodup_id l [] (fun a _ => List.not_mem_nil a) hnd
  have hfill : fill_na_flags l = l := by
    simp only [fill_na_flags]
    refine map_eq_self_of _ l fun a ha => ?_
    have h7 := (hinv a ha).2.2.2.2.2.2
    have hval : fillFlagsVal a.flags = a.flags := by
      cases hfa : a.flags with
      | fnull => exact absurd hfa h7
      | flist l2 => rfl
      | fstr s => rfl
    rw [hval]
  rw [filterChain, filterChainPreFill, ht, hn, hz, hf, hd, hfill]

/-- C2 counterexample: a two-row collection that is itself the output of
one full run of the filter chain (two otherwise-identical valid rows,
one with null flags and one with flags normal, made identical by the
final flag fill) loses a row when the chain is applied a second time, so
the chain is not idempotent on already-cleaned collections. -/
theorem claim2_counterexample :
    filterChain (filterChain [baseRec, recNormal]) ≠ filterChain [baseRec, recNormal] := by
  decide

/-- C2 amended: the filter chain applied a second time returns the
identical collection provided the first run produced pairwise-distinct
rows; in general the final null-flag fill can make two surviving rows
identical, and only then does the second run remove further rows (via
its duplicate-removal step). -/
theorem claim2_idempotent_when_output_nodup (l : List TransactionRecord)
    (h : (filterChain l).Nodup) :
    filterChain (filterChain l) = filterChain l := by
  apply filterChain_eq_self _ h
  intro r hr
  obtain ⟨rp, hrp, he⟩ := mem_filterChain _ _ hr
  obtain ⟨_, htest, hsand, hsome, hzero, hfail, hpend⟩ := mem_filterChainPreFill _ _ hrp
  subst he
  exact ⟨flagsContains_fill _ _ (by decide) htest,
    flagsContains_fill _ _ (by decide) hsand,
    hsome, hzero, hfail, hpend, fillFlagsVal_ne_fnull _⟩

/-- C2 witness: on a concrete already-cleaned one-row collection the
chain output is duplicate-free and a second run changes nothing. -/
theorem claim2_witness :
    (filterChain [recNormal]).Nodup ∧
    filterChain (filterChain [recNormal]) = filterChain [recNormal] :=
  ⟨by decide, claim2_idempotent_when_output_nodup [recNormal] (by decide)⟩

/-- Every row of the flag-canonicalized collection is an input row with
its flags joined. -/
theorem mem_extract_flags (df : List TransactionRecord) (r : TransactionRecord)
    (h : r ∈ extract_flags df) :
    ∃ r0 ∈ df, r = { r0 with flags := extractFlagsVal r0.flags } := by
  simp only [extract_flags, List.mem_map] at h
  obtain ⟨r0, hr0, he⟩ := h
  exact ⟨r0, hr0, he.symm⟩

/-- Every row surviving `clean_transactions` has both identifiers. -/
theorem mem_clean_transactions (df : List TransactionRecord)
    (r : TransactionRecord) (h : r ∈ clean_transactions df) :
    r ∈ df ∧ r.order_id.isSome = true ∧ r.payment_id.isSome = true := by
  simp only [clean_transactions, List.mem_filter] at h
  exact ⟨h.1.1, h.1.2, h.2⟩

/-- Every row of a successful `normalize_amount` output has a strictly
positive `amount_usd` cell and is an input row with that cell written. -/
theorem mem_normalize_amount (df0 df : List TransactionRecord)
    (h : normalize_amount df0 = some df) (r : TransactionRecord) (hr : r ∈ df) :
    (∃ d, r.amount_usd = some d ∧ 0 < d.num) ∧
    ∃ r0 ∈ df0, r = { r0 with amount_usd := (computeAmountUsd r0.amount).getD none } := by
  simp only [normalize_amount] at h
  by_cases hall : df0.all (fun r => (computeAmountUsd r.amount).isSome) = true
  · rw [if_pos hall] at h
    obtain rfl := (Option.some.inj h)
    simp only [List.mem_filter, List.mem_map] at hr
    obtain ⟨⟨r0, hr0, he⟩, hpred⟩ := hr
    refine ⟨?_, r0, hr0, he.symm⟩
    cases hd : r.amount_usd with
    | none => rw [hd] at hpred; exact absurd hpred (by simp)
    | some d =>
      rw [hd] at hpred
      exact ⟨d, rfl, by simpa using hpred⟩
  · rw [if_neg hall] at h
    exact Option.noConfusion h

/-- Filling the flags of a canonicalized cell always yields a scalar
string. -/
theorem fill_extract_fstr (v : FlagValue) :
    ∃ s, fillFlagsVal (extractFlagsVal v) = FlagValue.fstr s := by
  cases v with
  | fnull => exact ⟨"normal", rfl⟩
  | flist l => exact ⟨String.intercalate "," l, rfl⟩
  | fstr s => exact ⟨s, rfl⟩

/-- C1 counterexample: a pipeline run on a concrete batch of two valid
raw events — identical except that one has a null flags value and the
other the flags list holding the single word normal — completes and
outputs the same record twice, so the invariant that no two surviving
records are fully identical across all fields does not hold. -/
theorem claim1_counterexample :
    pipeline dupInput = some [dupOutRec, dupOutRec] ∧
    ¬ ([dupOutRec, dupOutRec].Nodup) := by
  exact ⟨by decide, by decide⟩

/-- C1 amended: after the pipeline completes, every surviving record has
a non-null order_id, a non-null payment_id, an `amount_usd` cell holding
a strictly positive value, a payment status that is neither FAILED nor
PENDING, and a flags value that is a defined scalar string (never null
and never a list); the surviving records are pairwise distinct just
before the final null-flag fill, but that fill can make two surviving
records fully identical (one whose flags were null and one whose flags
already read normal), so full pairwise distinctness of the final output
can fail. -/
theorem claim1_pipeline_invariants (data : List RawItem)
    (out : List TransactionRecord) (h : pipeline data = some out) :
    (∀ r ∈ out,
      r.order_id.isSome = true ∧ r.payment_id.isSome = true ∧
      (∃ q, r.amount_usd = some q ∧ 0 < q.toRat) ∧
      r.payment_status ≠ some "FAILED" ∧ r.payment_status ≠ some "PENDING" ∧
      ∃ s, r.flags = FlagValue.fstr s) ∧
    ∃ pre, out = fill_na_flags pre ∧ pre.Nodup := by
  cases hx : getting_relevant_data data with
  | none =>
    simp only [pipeline, hx] at h
    exact Option.noConfusion h
  | some recs =>
    simp only [pipeline, hx] at h
    cases hn : normalize_amount (clean_transactions recs) with
    | none =>
      simp only [hn] at h
      exact Option.noConfusion h
    | some df =>
      simp only [hn] at h
      obtain rfl := (Option.some.inj h)
      constructor
      · intro r hr
        obtain ⟨rp, hrp, he⟩ := mem_filterChain _ _ hr
        obtain ⟨hmem, _, _, _, _, hfail, hpend⟩ := mem_filterChainPreFill _ _ hrp
        obtain ⟨r0, hr0, he0⟩ := mem_extract_flags _ _ hmem
        obtain ⟨⟨d, hd, hdpos⟩, r1, hr1, he1⟩ := mem_normalize_amount _ _ hn r0 hr0
        obtain ⟨_, hord, hpay⟩ := mem_clean_transactions _ _ hr1
        have f1 : r.order_id = r1.order_id := by rw [he, he0, he1]
        have f2 : r.payment_id = r1.payment_id := by rw [he, he0, he1]
        have f3 : r.amount_usd = r0.amount_usd := by rw [he, he0]
        have f4 : r.payment_status = rp.payment_status := by rw [he]
        have f5 : r.flags = fillFlagsVal (extractFlagsVal r0.flags) := by rw [he, he0]
        refine ⟨?_, ?_, ⟨d, ?_, (DecAmount.toRat_pos d).mpr hdpos⟩, ?_, ?_, ?_⟩
        · rw [f1]; exact hord
        · rw [f2]; exact hpay
        · rw [f3]; exact hd
        · rw [f4]; exact hfail
        · rw [f4]; exact hpend
        · rw [f5]; exact fill_extract_fstr r0.flags
      · exact ⟨filterChainPreFill (extract_flags df), rfl, drop_duplicates_nodup _⟩

/-- C1 witness: a one-event batch completes the pipeline with one
surviving record satisfying every field condition. -/
theorem claim1_witness :
    (∀ r ∈ [dupOutRec],
      r.order_id.isSome = true ∧ r.payment_id.isSome = true ∧
      (∃ q, r.amount_usd = some q ∧ 0 < q.toRat) ∧
      r.payment_status ≠ some "FAILED" ∧ r.payment_status ≠ some "PENDING" ∧
      ∃ s, r.flags = FlagValue.fstr s) ∧
    ∃ pre, [dupOutRec] = fill_na_flags pre ∧ pre.Nodup :=
  claim1_pipeline_invariants [RawItem.dict eventNormalFlags] [dupOutRec] (by decide)

end CleanTransactions
